import Mathlib

/-!
Shallow embedding of `examples/python/protocol_parser.py` from the
OpenBikeControl protocol repository.

Modelling conventions:
* A byte buffer (`bytes` / `bytearray`) is a `List Nat`; a real buffer has
  every element `< 256`.
* Python strings are modelled by their UTF-8 byte sequences (`List Nat`):
  `s.encode('utf-8')` is the identity of the model and `bytes.decode('utf-8')`
  on bytes that came from an encoded string is its inverse, so each string
  field appears directly as its byte list.
* `bytearray.append` / `bytearray.extend` / `bytes([...])` raise `ValueError`
  on an integer outside `0..255`; the encoders therefore return
  `Option (List Nat)`, with `none` for a raised `ValueError`.
* The parsers raise `ValueError` with distinct messages; these are modelled
  by the `ParseError` constructors, one per distinct raise site kind.
* Python reads `data[idx]` only behind explicit bounds guards (mirrored
  here), so the guarded reads are rendered with `List.getD _ _ 0`.
* A Python `dict` is modelled as an insertion-ordered association list;
  `d[k] = v` is `dictInsert` (replace in place if the key exists, else
  append), matching CPython dict semantics.
-/

/-- Message type tags (for TCP/mDNS protocol). -/
def MSG_TYPE_BUTTON_STATE : Nat := 0x01

def MSG_TYPE_DEVICE_STATUS : Nat := 0x02

def MSG_TYPE_HAPTIC_FEEDBACK : Nat := 0x03

def MSG_TYPE_APP_INFO : Nat := 0x04

/-- Model of `bytearray.append b`: succeeds exactly when `b` is a byte. -/
def appendByte (data : List Nat) (b : Nat) : Option (List Nat) :=
  if b < 256 then some (data ++ [b]) else none

/-- Model of `bytearray.extend xs` / `bytes(xs)`: succeeds exactly when every element
is a byte. -/
def extendBytes (data : List Nat) (xs : List Nat) : Option (List Nat) :=
  if xs.all (· < 256) then some (data ++ xs) else none

/-- The two-at-a-time pair loop of `parse_button_state`
(`for i in range(1, len(data), 2): if i + 1 < len(data): ...`), applied to
the bytes after the tag: consecutive pairs, a trailing unpaired byte
discarded. -/
def pairsFrom : List Nat → List (Nat × Nat)
  | a :: b :: rest => (a, b) :: pairsFrom rest
  | _ => []

/-- Model of `parse_button_state(data)`: empty result on an empty buffer or a
mismatched leading tag, else the `(button_id, state)` pairs after the tag. -/
def parse_button_state (data : List Nat) : List (Nat × Nat) :=
  if data.length = 0 then []
  else if data.getD 0 0 ≠ MSG_TYPE_BUTTON_STATE then []
  else pairsFrom (data.drop 1)

/-- Model of `encode_button_state(buttons)`: tag byte, then `button_id`, `state` for
each pair, each appended as a byte. -/
def encode_button_state (buttons : List (Nat × Nat)) : Option (List Nat) :=
  buttons.foldlM (fun data p => extendBytes data [p.1, p.2]) [MSG_TYPE_BUTTON_STATE]

/-- Result of `parse_device_status`. -/
structure DeviceStatus where
  battery : Option Nat
  connected : Bool
deriving DecidableEq, Repr

/-- The distinct error kinds raised by the parsers: the `ValueError`
raise sites, plus the `UnicodeDecodeError` that `bytes.decode('utf-8')`
raises on invalid UTF-8 (the spec's InvalidUtf8 kind). -/
inductive ParseError where
  | tooShort
  | wrongTag
  | unsupportedVersion
  | missingField
  | fieldExceedsBuffer
  | invalidUtf8
deriving DecidableEq, Repr

/-- Model of `parse_device_status(data)`. -/
def parse_device_status (data : List Nat) : Except ParseError DeviceStatus :=
  if data.length < 3 then .error .tooShort
  else if data.getD 0 0 ≠ MSG_TYPE_DEVICE_STATUS then .error .wrongTag
  else
    .ok { battery := if data.getD 1 0 = 0xFF then none else some (data.getD 1 0),
          connected := data.getD 2 0 = 0x01 }

/-- Model of `encode_device_status(battery, connected)`: `bytes([tag, battery_byte,
connected_byte])`. -/
def encode_device_status (battery : Option Nat) (connected : Bool) : Option (List Nat) :=
  let battery_byte := match battery with
    | none => 0xFF
    | some b => b
  let connected_byte := if connected then 0x01 else 0x00
  extendBytes [] [MSG_TYPE_DEVICE_STATUS, battery_byte, connected_byte]

/-- The `HAPTIC_PATTERNS` table, in its Python insertion order. -/
def HAPTIC_PATTERNS : List (String × Nat) :=
  [("none", 0x00), ("short", 0x01), ("double", 0x02), ("triple", 0x03),
   ("long", 0x04), ("success", 0x05), ("warning", 0x06), ("error", 0x07)]

/-- Model of `encode_haptic_feedback(pattern, duration, intensity)`: the pattern byte
is `HAPTIC_PATTERNS.get(pattern, HAPTIC_PATTERNS["short"])`. -/
def encode_haptic_feedback (pattern : String) (duration intensity : Nat) : Option (List Nat) :=
  let pattern_byte := match HAPTIC_PATTERNS.find? (fun p => p.1 == pattern) with
    | some p => p.2
    | none => 0x01
  extendBytes [MSG_TYPE_HAPTIC_FEEDBACK] [pattern_byte, duration, intensity]

/-- Result of `parse_haptic_feedback`. -/
structure HapticCommand where
  pattern : String
  pattern_byte : Nat
  duration : Nat
  intensity : Nat
deriving DecidableEq, Repr

/-- The reverse-lookup loop of `parse_haptic_feedback`: the first name in
`HAPTIC_PATTERNS` whose value is `b`, defaulting to `"unknown"`. -/
def hapticName (b : Nat) : String :=
  match HAPTIC_PATTERNS.find? (fun p => p.2 == b) with
  | some p => p.1
  | none => "unknown"

/-- Model of `parse_haptic_feedback(data)`. -/
def parse_haptic_feedback (data : List Nat) : Except ParseError HapticCommand :=
  if data.length < 4 then .error .tooShort
  else if data.getD 0 0 ≠ MSG_TYPE_HAPTIC_FEEDBACK then .error .wrongTag
  else
    .ok { pattern := hapticName (data.getD 1 0),
          pattern_byte := data.getD 1 0,
          duration := data.getD 2 0,
          intensity := data.getD 3 0 }

/-- Result of `parse_app_info`. String fields are their UTF-8 byte lists;
`button_hints` is the insertion-ordered dict. -/
structure AppInfo where
  device_type : List Nat
  app_id : List Nat
  app_version : List Nat
  supported_buttons : List Nat
  button_hints : List (Nat × List Nat)
deriving DecidableEq, Repr

/-- CPython dict assignment `d[k] = v` on an insertion-ordered association
list: replace in place when the key exists, else append. -/
def dictInsert (m : List (Nat × List Nat)) (k : Nat) (v : List Nat) : List (Nat × List Nat) :=
  match m with
  | [] => [(k, v)]
  | (k1, v1) :: rest => if k1 = k then (k, v) :: rest else (k1, v1) :: dictInsert rest k v

/-- The length-prefixed-field pattern used four times in `parse_app_info`
(`if idx >= len(data): raise Missing...; l = data[idx]; idx += 1;
if idx + l > len(data): raise ...exceeds buffer; field = data[idx:idx+l];
idx += l`): returns the field bytes and the new index. -/
def readField (data : List Nat) (idx : Nat) : Except ParseError (List Nat × Nat) :=
  if data.length ≤ idx then .error .missingField
  else
    let l := data.getD idx 0
    if data.length < idx + 1 + l then .error .fieldExceedsBuffer
    else .ok (((data.drop (idx + 1)).take l), idx + 1 + l)

/-- A UTF-8 continuation byte, `0x80..0xBF`. -/
def utf8Cont (b : Nat) : Bool := 0x80 ≤ b && b ≤ 0xBF

/-- Validity of a byte sequence for CPython `bytes.decode('utf-8')`
(strict errors mode): well-formed UTF-8 only — ASCII bytes; 2-byte
sequences with lead `0xC2..0xDF` (`0xC0`/`0xC1` overlong); 3-byte
sequences where lead `0xE0` needs second byte `0xA0..0xBF` (overlongs)
and lead `0xED` needs second byte `0x80..0x9F` (surrogates); 4-byte
sequences where lead `0xF0` needs `0x90..0xBF` (overlongs), lead `0xF4`
needs `0x80..0x8F` (above U+10FFFF) and leads `0xF5..` are invalid;
every other following byte a continuation byte. -/
def validUtf8 : List Nat → Bool
  | [] => true
  | b :: rest =>
    if b ≤ 0x7F then validUtf8 rest
    else if b ≤ 0xC1 then false
    else if b ≤ 0xDF then
      match rest with
      | c1 :: rest1 => utf8Cont c1 && validUtf8 rest1
      | [] => false
    else if b ≤ 0xEF then
      match rest with
      | c1 :: c2 :: rest2 =>
        (if b = 0xE0 then 0xA0 ≤ c1 && c1 ≤ 0xBF
         else if b = 0xED then 0x80 ≤ c1 && c1 ≤ 0x9F
         else utf8Cont c1) && utf8Cont c2 && validUtf8 rest2
      | _ => false
    else if b ≤ 0xF4 then
      match rest with
      | c1 :: c2 :: c3 :: rest3 =>
        (if b = 0xF0 then 0x90 ≤ c1 && c1 ≤ 0xBF
         else if b = 0xF4 then 0x80 ≤ c1 && c1 ≤ 0x8F
         else utf8Cont c1) && utf8Cont c2 && utf8Cont c3 && validUtf8 rest3
      | _ => false
    else false

/-- A length-prefixed string field of `parse_app_info`: the `readField`
pattern followed by `data[idx:idx+l].decode('utf-8')`, which raises
`UnicodeDecodeError` on invalid UTF-8. -/
def readStringField (data : List Nat) (idx : Nat) : Except ParseError (List Nat × Nat) :=
  match readField data idx with
  | .error e => .error e
  | .ok (field, i) => if validUtf8 field then .ok (field, i) else .error .invalidUtf8

/-- The `for _ in range(hint_count)` loop of `parse_app_info`: each
iteration reads a button id, a label length and the label, breaking (and
keeping the hints accumulated so far) on any truncation; the label's
`.decode('utf-8')` raises out of the whole parse on invalid UTF-8. -/
def parseHints (fuel : Nat) (data : List Nat) (idx : Nat)
    (acc : List (Nat × List Nat)) : Except ParseError (List (Nat × List Nat)) :=
  match fuel with
  | 0 => .ok acc
  | fuel + 1 =>
    if data.length ≤ idx then .ok acc
    else
      let button_id := data.getD idx 0
      if data.length ≤ idx + 1 then .ok acc
      else
        let label_len := data.getD (idx + 1) 0
        if data.length < idx + 2 + label_len then .ok acc
        else
          let label := (data.drop (idx + 2)).take label_len
          if validUtf8 label then
            parseHints fuel data (idx + 2 + label_len) (dictInsert acc button_id label)
          else .error .invalidUtf8

/-- Model of `parse_app_info(data)`. -/
def parse_app_info (data : List Nat) : Except ParseError AppInfo :=
  if data.length < 1 ∨ data.getD 0 0 ≠ MSG_TYPE_APP_INFO then .error .wrongTag
  else if data.length < 1 + 3 then .error .tooShort
  else if data.getD 1 0 ≠ 0x01 then .error .unsupportedVersion
  else
    match readStringField data 2 with
    | .error e => .error e
    | .ok (device_type, i1) =>
      match readStringField data i1 with
      | .error e => .error e
      | .ok (app_id, i2) =>
        match readStringField data i2 with
        | .error e => .error e
        | .ok (app_version, i3) =>
          match readField data i3 with
          | .error e => .error e
          | .ok (button_ids, i4) =>
            match (if i4 < data.length then parseHints (data.getD i4 0) data (i4 + 1) []
                   else .ok []) with
            | .error e => .error e
            | .ok button_hints =>
              .ok { device_type := device_type, app_id := app_id,
                    app_version := app_version, supported_buttons := button_ids,
                    button_hints := button_hints }

/-- One iteration of the hint-encoding loop of `encode_app_info`: button id,
label length, label bytes (label truncated to 32 bytes first). -/
def encodeHint (data : List Nat) (h : Nat × List Nat) : Option (List Nat) := do
  let label_bytes := h.2.take 32
  let d1 ← appendByte data h.1
  let d2 ← appendByte d1 label_bytes.length
  extendBytes d2 label_bytes

/-- Model of `encode_app_info(app_id, app_version, supported_buttons, device_type,
button_hints)`: string fields truncated to 32 bytes, then tag, version,
the three length-prefixed strings, button count and ids, hint count and
hints. -/
def encode_app_info (app_id app_version : List Nat) (supported_buttons : List Nat)
    (device_type : List Nat) (button_hints : List (Nat × List Nat)) : Option (List Nat) := do
  let device_type_bytes := device_type.take 32
  let app_id_bytes := app_id.take 32
  let app_version_bytes := app_version.take 32
  let d ← appendByte [MSG_TYPE_APP_INFO] 0x01
  let d ← appendByte d device_type_bytes.length
  let d ← extendBytes d device_type_bytes
  let d ← appendByte d app_id_bytes.length
  let d ← extendBytes d app_id_bytes
  let d ← appendByte d app_version_bytes.length
  let d ← extendBytes d app_version_bytes
  let d ← appendByte d supported_buttons.length
  let d ← extendBytes d supported_buttons
  let d ← appendByte d button_hints.length
  button_hints.foldlM encodeHint d

/-- The byte layout of one encoded hint list: id, label length, label. -/
def hintsBytes (hints : List (Nat × List Nat)) : List Nat :=
  hints.flatMap fun h => h.1 :: h.2.length :: h.2

/-- The mandatory part of an encoded AppInfo buffer: tag, version and the
four length-prefixed mandatory fields. -/
def appInfoHeader (device_type app_id app_version supported_buttons : List Nat) : List Nat :=
  [MSG_TYPE_APP_INFO, 0x01, device_type.length] ++ device_type ++
  [app_id.length] ++ app_id ++ [app_version.length] ++ app_version ++
  [supported_buttons.length] ++ supported_buttons

/-- The byte buffer `encode_app_info` produces when nothing is truncated
and every append is in range. -/
def appInfoBytes (device_type app_id app_version supported_buttons : List Nat)
    (button_hints : List (Nat × List Nat)) : List Nat :=
  appInfoHeader device_type app_id app_version supported_buttons ++
  [button_hints.length] ++ hintsBytes button_hints

/-- The three ways a trailing hint can be truncated: nothing left, only a
button id left, or a label length that exceeds the remaining bytes. -/
def truncatedTail (tail : List Nat) : Prop :=
  tail = [] ∨ (∃ b, tail = [b]) ∨ ∃ b l p, tail = b :: l :: p ∧ p.length < l

instance {ε α : Type} [DecidableEq ε] [DecidableEq α] : DecidableEq (Except ε α) := fun
  | .error a, .error b =>
    if h : a = b then isTrue (by rw [h]) else isFalse (by simp [h])
  | .error _, .ok _ => isFalse (by simp)
  | .ok _, .error _ => isFalse (by simp)
  | .ok a, .ok b =>
    if h : a = b then isTrue (by rw [h]) else isFalse (by simp [h])

theorem getD_at (pre : List Nat) (x : Nat) (t : List Nat) :
    (pre ++ x :: t).getD pre.length 0 = x := by
  induction pre with
  | nil => rfl
  | cons a pre ih => simpa using ih

theorem getD_at' (data pre : List Nat) (x : Nat) (t : List Nat) (idx : Nat)
    (hdata : data = pre ++ x :: t) (hidx : idx = pre.length) :
    data.getD idx 0 = x := by
  subst hdata hidx; exact getD_at pre x t

theorem drop_at' (data pre t : List Nat) (idx : Nat)
    (hdata : data = pre ++ t) (hidx : idx = pre.length) :
    data.drop idx = t := by
  subst hdata hidx; exact List.drop_left pre t

theorem readField_spec (data pre field rest : List Nat) (idx : Nat)
    (hdata : data = pre ++ field.length :: (field ++ rest)) (hidx : idx = pre.length) :
    readField data idx = .ok (field, idx + 1 + field.length) := by
  have hlen : data.length = idx + 1 + field.length + rest.length := by
    subst hdata hidx; simp; omega
  have hget : data.getD idx 0 = field.length := getD_at' data pre field.length (field ++ rest) idx hdata hidx
  have hdrop : data.drop (idx + 1) = field ++ rest := by
    refine drop_at' data (pre ++ [field.length]) (field ++ rest) (idx + 1) ?_ ?_
    · simp [hdata]
    · simp [hidx]
  unfold readField
  rw [if_neg (by omega), hget, if_neg (by omega), hdrop, List.take_left' rfl]

theorem readField_exceeds (data pre : List Nat) (l : Nat) (rest : List Nat) (idx : Nat)
    (hdata : data = pre ++ l :: rest) (hidx : idx = pre.length) (h : rest.length < l) :
    readField data idx = .error .fieldExceedsBuffer := by
  have hlen : data.length = idx + 1 + rest.length := by
    subst hdata hidx; simp; omega
  have hget : data.getD idx 0 = l := getD_at' data pre l rest idx hdata hidx
  unfold readField
  rw [if_neg (by omega), hget, if_pos (by omega)]

theorem readStringField_spec (data pre field rest : List Nat) (idx : Nat)
    (hdata : data = pre ++ field.length :: (field ++ rest)) (hidx : idx = pre.length)
    (hvalid : validUtf8 field = true) :
    readStringField data idx = .ok (field, idx + 1 + field.length) := by
  simp only [readStringField, readField_spec data pre field rest idx hdata hidx, hvalid,
    if_true]

theorem readStringField_exceeds (data pre : List Nat) (l : Nat) (rest : List Nat) (idx : Nat)
    (hdata : data = pre ++ l :: rest) (hidx : idx = pre.length) (h : rest.length < l) :
    readStringField data idx = .error .fieldExceedsBuffer := by
  simp only [readStringField, readField_exceeds data pre l rest idx hdata hidx h]

theorem parseHints_step (data pre : List Nat) (b : Nat) (lab tail : List Nat) (fuel : Nat)
    (acc : List (Nat × List Nat))
    (hdata : data = pre ++ (b :: lab.length :: lab) ++ tail)
    (hvalid : validUtf8 lab = true) :
    parseHints (fuel + 1) data pre.length acc
      = parseHints fuel data (pre.length + 2 + lab.length) (dictInsert acc b lab) := by
  have hlen : data.length = pre.length + 2 + lab.length + tail.length := by
    subst hdata; simp; omega
  have hb : data.getD pre.length 0 = b := by
    refine getD_at' data pre b (lab.length :: (lab ++ tail)) pre.length ?_ rfl
    simp [hdata]
  have hl : data.getD (pre.length + 1) 0 = lab.length := by
    refine getD_at' data (pre ++ [b]) lab.length (lab ++ tail) (pre.length + 1) ?_ (by simp)
    simp [hdata]
  have hdrop : data.drop (pre.length + 2) = lab ++ tail := by
    refine drop_at' data (pre ++ [b, lab.length]) (lab ++ tail) (pre.length + 2) ?_ (by simp)
    simp [hdata]
  show parseHints (fuel + 1) data pre.length acc = _
  unfold parseHints
  rw [if_neg (by omega), hb, if_neg (by omega), hl, if_neg (by omega), hdrop,
    List.take_left' rfl]
  simp only [hvalid, if_true]
  rw [← parseHints.eq_def]

theorem parseHints_consume :
    ∀ (hints : List (Nat × List Nat)) (fuel : Nat) (data pre tail : List Nat)
      (acc : List (Nat × List Nat)),
      data = pre ++ hintsBytes hints ++ tail →
      (∀ h ∈ hints, validUtf8 h.2 = true) →
      parseHints (hints.length + fuel) data pre.length acc
        = parseHints fuel data (pre.length + (hintsBytes hints).length)
            (hints.foldl (fun m h => dictInsert m h.1 h.2) acc)
  | [], fuel, data, pre, tail, acc, hdata, _ => by simp [hintsBytes]
  | h :: rest, fuel, data, pre, tail, acc, hdata, hv => by
    have hsplit : data = pre ++ (h.1 :: h.2.length :: h.2) ++ (hintsBytes rest ++ tail) := by
      rw [hdata]; simp [hintsBytes]
    have hstep := parseHints_step data pre h.1 h.2 (hintsBytes rest ++ tail)
      (rest.length + fuel) acc hsplit (hv h (List.mem_cons_self _ _))
    have hfuel : (h :: rest).length + fuel = (rest.length + fuel) + 1 := by simp; omega
    rw [hfuel, hstep]
    have hrec := parseHints_consume rest fuel data (pre ++ (h.1 :: h.2.length :: h.2)) tail
      (dictInsert acc h.1 h.2) (by rw [hsplit]; simp)
      (fun x hx => hv x (List.mem_cons_of_mem _ hx))
    have hpre : (pre ++ (h.1 :: h.2.length :: h.2)).length = pre.length + 2 + h.2.length := by
      simp; omega
    rw [hpre] at hrec
    rw [hrec]
    have hlen2 : pre.length + 2 + h.2.length + (hintsBytes rest).length
        = pre.length + (hintsBytes (h :: rest)).length := by
      simp [hintsBytes]; omega
    rw [hlen2]
    simp [List.foldl_cons]

theorem parseHints_stop (data pre tail : List Nat) (fuel : Nat)
    (acc : List (Nat × List Nat)) (hdata : data = pre ++ tail) (htail : truncatedTail tail) :
    parseHints (fuel + 1) data pre.length acc = .ok acc := by
  rcases htail with h0 | ⟨b, h1⟩ | ⟨b, l, p, h2, hlp⟩
  · subst h0
    unfold parseHints
    rw [if_pos (by simp [hdata])]
  · subst h1
    have hlen : data.length = pre.length + 1 := by simp [hdata]
    unfold parseHints
    rw [if_neg (by omega)]
    rw [if_pos (by omega)]
  · subst h2
    have hlen : data.length = pre.length + 2 + p.length := by simp [hdata]; omega
    have hl : data.getD (pre.length + 1) 0 = l := by
      refine getD_at' data (pre ++ [b]) l p (pre.length + 1) ?_ (by simp)
      simp [hdata]
    unfold parseHints
    rw [if_neg (by omega), if_neg (by omega), hl, if_pos (by omega)]

theorem dictInsert_not_mem :
    ∀ (m : List (Nat × List Nat)) (k : Nat) (v : List Nat),
      k ∉ m.map Prod.fst → dictInsert m k v = m ++ [(k, v)]
  | [], _, _, _ => rfl
  | (k1, v1) :: rest, k, v, h => by
    rw [List.map_cons] at h
    have hk : k1 ≠ k := by intro he; subst he; exact h (List.mem_cons_self _ _)
    have hr : k ∉ rest.map Prod.fst := fun hm => h (List.mem_cons_of_mem _ hm)
    simp only [dictInsert, if_neg hk]
    rw [dictInsert_not_mem rest k v hr]
    simp

theorem foldl_dictInsert_eq :
    ∀ (hints acc : List (Nat × List Nat)),
      (hints.map Prod.fst).Nodup →
      (∀ k ∈ hints.map Prod.fst, k ∉ acc.map Prod.fst) →
      hints.foldl (fun m h => dictInsert m h.1 h.2) acc = acc ++ hints
  | [], acc, _, _ => by simp
  | h :: rest, acc, hnodup, hdisj => by
    rw [List.map_cons, List.nodup_cons] at hnodup
    simp only [List.foldl_cons]
    have hnotacc : h.1 ∉ acc.map Prod.fst :=
      hdisj h.1 (by rw [List.map_cons]; exact List.mem_cons_self _ _)
    rw [dictInsert_not_mem acc h.1 h.2 hnotacc]
    rw [foldl_dictInsert_eq rest (acc ++ [(h.1, h.2)]) hnodup.2 ?_]
    · simp
    · intro k hk
      rw [List.map_append, List.mem_append]
      rintro (hka | hkh)
      · exact hdisj k (by rw [List.map_cons]; exact List.mem_cons_of_mem _ hk) hka
      · have hkh1 : k = h.1 := by simpa using hkh
        exact hnodup.1 (hkh1 ▸ hk)

theorem appendByte_ok (data : List Nat) (b : Nat) (h : b < 256) :
    appendByte data b = some (data ++ [b]) := by
  unfold appendByte
  rw [if_pos h]

theorem extendBytes_ok (data xs : List Nat) (h : ∀ b ∈ xs, b < 256) :
    extendBytes data xs = some (data ++ xs) := by
  unfold extendBytes
  rw [if_pos]
  rw [List.all_eq_true]
  intro x hx
  simpa using h x hx

theorem foldlM_encodeHint :
    ∀ (hints : List (Nat × List Nat)) (d : List Nat),
      (∀ h ∈ hints, h.1 < 256 ∧ h.2.length ≤ 32 ∧ ∀ b ∈ h.2, b < 256) →
      hints.foldlM encodeHint d = some (d ++ hintsBytes hints)
  | [], d, _ => by simp [hintsBytes]
  | h :: rest, d, hh => by
    obtain ⟨h1, h2, h3⟩ := hh h (List.mem_cons_self _ _)
    have htake : h.2.take 32 = h.2 := List.take_of_length_le h2
    have hlb : h.2.length < 256 := by omega
    have henc : encodeHint d h = some (d ++ (h.1 :: h.2.length :: h.2)) := by
      simp [encodeHint, htake, appendByte_ok _ _ h1, appendByte_ok _ _ hlb,
        extendBytes_ok _ _ h3]
    rw [List.foldlM_cons, henc]
    show rest.foldlM encodeHint _ = _
    rw [foldlM_encodeHint rest _ (fun x hx => hh x (List.mem_cons_of_mem _ hx))]
    simp [hintsBytes]

theorem encode_app_info_eq (app_id app_version supported_buttons device_type : List Nat)
    (button_hints : List (Nat × List Nat))
    (hdt : device_type.length ≤ 32) (hdtb : ∀ b ∈ device_type, b < 256)
    (hid : app_id.length ≤ 32) (hidb : ∀ b ∈ app_id, b < 256)
    (hver : app_version.length ≤ 32) (hverb : ∀ b ∈ app_version, b < 256)
    (hbtns : supported_buttons.length ≤ 255) (hbtnsb : ∀ b ∈ supported_buttons, b < 256)
    (hhints : button_hints.length ≤ 255)
    (hh : ∀ h ∈ button_hints, h.1 < 256 ∧ h.2.length ≤ 32 ∧ ∀ b ∈ h.2, b < 256) :
    encode_app_info app_id app_version supported_buttons device_type button_hints
      = some (appInfoBytes device_type app_id app_version supported_buttons button_hints) := by
  unfold encode_app_info
  rw [List.take_of_length_le hdt, List.take_of_length_le hid, List.take_of_length_le hver]
  rw [appendByte_ok _ _ (by omega)]
  simp only [Option.bind_eq_bind, Option.some_bind]
  rw [appendByte_ok _ _ (by omega)]
  simp only [Option.some_bind]
  rw [extendBytes_ok _ _ hdtb]
  simp only [Option.some_bind]
  rw [appendByte_ok _ _ (by omega)]
  simp only [Option.some_bind]
  rw [extendBytes_ok _ _ hidb]
  simp only [Option.some_bind]
  rw [appendByte_ok _ _ (by omega)]
  simp only [Option.some_bind]
  rw [extendBytes_ok _ _ hverb]
  simp only [Option.some_bind]
  rw [appendByte_ok _ _ (by omega)]
  simp only [Option.some_bind]
  rw [extendBytes_ok _ _ hbtnsb]
  simp only [Option.some_bind]
  rw [appendByte_ok _ _ (by omega)]
  simp only [Option.some_bind]
  rw [foldlM_encodeHint _ _ hh]
  simp [appInfoBytes, appInfoHeader, MSG_TYPE_APP_INFO]

theorem parse_app_info_shape (dt id ver btns rest : List Nat)
    (hdtu : validUtf8 dt = true) (hidu : validUtf8 id = true)
    (hveru : validUtf8 ver = true) :
    parse_app_info (appInfoHeader dt id ver btns ++ rest)
      = match rest with
        | [] => .ok { device_type := dt, app_id := id, app_version := ver,
                      supported_buttons := btns, button_hints := [] }
        | hc :: hrest =>
          match parseHints hc (appInfoHeader dt id ver btns ++ (hc :: hrest))
              ((appInfoHeader dt id ver btns).length + 1) [] with
          | .error e => .error e
          | .ok h => .ok { device_type := dt, app_id := id, app_version := ver,
                           supported_buttons := btns, button_hints := h } := by
  have hlen : (appInfoHeader dt id ver btns ++ rest).length
      = dt.length + id.length + ver.length + btns.length + 6 + rest.length := by
    simp only [appInfoHeader, List.length_append, List.length_cons, List.length_nil]
    omega
  have h0 : (appInfoHeader dt id ver btns ++ rest).getD 0 0 = 4 :=
    getD_at' _ [] 4
      (1 :: dt.length :: (dt ++ id.length :: (id ++ ver.length :: (ver ++ btns.length :: (btns ++ rest)))))
      0 (by simp [appInfoHeader, MSG_TYPE_APP_INFO]) rfl
  have h1 : (appInfoHeader dt id ver btns ++ rest).getD 1 0 = 1 :=
    getD_at' _ [4] 1
      (dt.length :: (dt ++ id.length :: (id ++ ver.length :: (ver ++ btns.length :: (btns ++ rest)))))
      1 (by simp [appInfoHeader, MSG_TYPE_APP_INFO]) rfl
  have hr1 : readStringField (appInfoHeader dt id ver btns ++ rest) 2
      = .ok (dt, 2 + 1 + dt.length) :=
    readStringField_spec _ [4, 1] dt
      (id.length :: (id ++ ver.length :: (ver ++ btns.length :: (btns ++ rest))))
      2 (by simp [appInfoHeader, MSG_TYPE_APP_INFO]) rfl hdtu
  have hr2 : readStringField (appInfoHeader dt id ver btns ++ rest) (2 + 1 + dt.length)
      = .ok (id, 2 + 1 + dt.length + 1 + id.length) :=
    readStringField_spec _ ([4, 1, dt.length] ++ dt) id
      (ver.length :: (ver ++ btns.length :: (btns ++ rest)))
      (2 + 1 + dt.length) (by simp [appInfoHeader, MSG_TYPE_APP_INFO])
      (by simp only [List.length_append, List.length_cons, List.length_nil] <;> omega) hidu
  have hr3 : readStringField (appInfoHeader dt id ver btns ++ rest)
      (2 + 1 + dt.length + 1 + id.length)
      = .ok (ver, 2 + 1 + dt.length + 1 + id.length + 1 + ver.length) :=
    readStringField_spec _ ([4, 1, dt.length] ++ dt ++ [id.length] ++ id) ver
      (btns.length :: (btns ++ rest))
      (2 + 1 + dt.length + 1 + id.length)
      (by simp [appInfoHeader, MSG_TYPE_APP_INFO])
      (by simp only [List.length_append, List.length_cons, List.length_nil] <;> omega) hveru
  have hr4 : readField (appInfoHeader dt id ver btns ++ rest)
      (2 + 1 + dt.length + 1 + id.length + 1 + ver.length)
      = .ok (btns, 2 + 1 + dt.length + 1 + id.length + 1 + ver.length + 1 + btns.length) :=
    readField_spec _ ([4, 1, dt.length] ++ dt ++ [id.length] ++ id ++ [ver.length] ++ ver) btns
      rest
      (2 + 1 + dt.length + 1 + id.length + 1 + ver.length)
      (by simp [appInfoHeader, MSG_TYPE_APP_INFO])
      (by simp only [List.length_append, List.length_cons, List.length_nil] <;> omega)
  unfold parse_app_info
  rw [if_neg (by push_neg; exact ⟨by omega, by rw [h0]; rfl⟩)]
  rw [if_neg (by omega)]
  rw [if_neg (by rw [h1]; simp)]
  simp only [hr1, hr2, hr3, hr4]
  cases rest with
  | nil =>
    rw [if_neg (by
      simp only [List.append_nil, appInfoHeader, List.length_append, List.length_cons,
        List.length_nil] <;> omega)]
  | cons hc hrest =>
    rw [if_pos (by
      simp only [appInfoHeader, List.length_append, List.length_cons, List.length_nil] <;> omega)]
    have hget : (appInfoHeader dt id ver btns ++ hc :: hrest).getD
        (2 + 1 + dt.length + 1 + id.length + 1 + ver.length + 1 + btns.length) 0 = hc :=
      getD_at' _ (appInfoHeader dt id ver btns) hc hrest _ rfl
        (by simp only [appInfoHeader, List.length_append, List.length_cons,
          List.length_nil] <;> omega)
    rw [hget]
    have hidx : 2 + 1 + dt.length + 1 + id.length + 1 + ver.length + 1 + btns.length
        = (appInfoHeader dt id ver btns).length := by
      simp only [appInfoHeader, List.length_append, List.length_cons, List.length_nil] <;> omega
    rw [hidx]

theorem foldlM_pairs :
    ∀ (v : List (Nat × Nat)) (d : List Nat),
      (∀ p ∈ v, p.1 < 256 ∧ p.2 < 256) →
      v.foldlM (fun data p => extendBytes data [p.1, p.2]) d
        = some (d ++ v.flatMap fun p => [p.1, p.2])
  | [], d, _ => by simp
  | p :: rest, d, h => by
    obtain ⟨h1, h2⟩ := h p (List.mem_cons_self _ _)
    have hex : extendBytes d [p.1, p.2] = some (d ++ [p.1, p.2]) := by
      refine extendBytes_ok d [p.1, p.2] ?_
      intro b hb
      simp only [List.mem_cons, List.not_mem_nil, or_false] at hb
      rcases hb with hb | hb <;> omega
    rw [List.foldlM_cons, hex]
    show rest.foldlM _ _ = _
    rw [foldlM_pairs rest _ (fun x hx => h x (List.mem_cons_of_mem _ hx))]
    simp

theorem pairsFrom_flat :
    ∀ v : List (Nat × Nat), pairsFrom (v.flatMap fun p => [p.1, p.2]) = v
  | [] => rfl
  | p :: rest => by
    show pairsFrom (p.1 :: p.2 :: rest.flatMap fun q => [q.1, q.2]) = p :: rest
    rw [pairsFrom, pairsFrom_flat rest]

theorem pairsFrom_append_even :
    ∀ (l : List Nat) (b : Nat), l.length % 2 = 0 → pairsFrom (l ++ [b]) = pairsFrom l
  | [], _, _ => rfl
  | [a], _, h => by simp at h
  | a :: c :: rest, b, h => by
    show pairsFrom (a :: c :: (rest ++ [b])) = pairsFrom (a :: c :: rest)
    rw [pairsFrom, pairsFrom]
    rw [pairsFrom_append_even rest b (by simp at h; omega)]

theorem getD_take (data : List Nat) (i n : Nat) (h : i < n) :
    (data.take n).getD i 0 = data.getD i 0 := by
  rw [List.getD_eq_getElem?_getD, List.getD_eq_getElem?_getD, List.getElem?_take_of_lt h]

theorem hapticName_unknown (p : Nat) (h : 7 < p) : hapticName p = "unknown" := by
  have hnone : HAPTIC_PATTERNS.find? (fun q => q.2 == p) = none := by
    rw [List.find?_eq_none]
    intro x hx
    fin_cases hx <;> simp <;> omega
  rw [hapticName, hnone]

theorem haptic_find_name_none (pattern : String)
    (h : pattern ∉ HAPTIC_PATTERNS.map Prod.fst) :
    HAPTIC_PATTERNS.find? (fun q => q.1 == pattern) = none := by
  rw [List.find?_eq_none]
  intro x hx
  simp only [beq_iff_eq]
  intro he
  exact h (he ▸ List.mem_map_of_mem Prod.fst hx)

theorem haptic_values_bytes : ∀ q ∈ HAPTIC_PATTERNS, q.2 < 256 := by decide

theorem foldlM_encodeHint_isSome :
    ∀ (hints : List (Nat × List Nat)) (d : List Nat),
      (∀ h ∈ hints, h.1 < 256 ∧ ∀ b ∈ h.2, b < 256) →
      (hints.foldlM encodeHint d).isSome = true
  | [], d, _ => by simp
  | h :: rest, d, hh => by
    obtain ⟨h1, h2⟩ := hh h (List.mem_cons_self _ _)
    have hlb : (h.2.take 32).length < 256 := by
      have := List.length_take_le 32 h.2
      omega
    have ha1 : appendByte d h.1 = some (d ++ [h.1]) := appendByte_ok _ _ h1
    have ha2 : appendByte (d ++ [h.1]) (h.2.take 32).length
        = some (d ++ [h.1] ++ [(h.2.take 32).length]) := appendByte_ok _ _ hlb
    have ha3 : extendBytes (d ++ [h.1] ++ [(h.2.take 32).length]) (h.2.take 32)
        = some (d ++ [h.1] ++ [(h.2.take 32).length] ++ h.2.take 32) :=
      extendBytes_ok _ _ (fun b hb => h2 b (List.take_subset 32 h.2 hb))
    have henc : encodeHint d h
        = some (d ++ [h.1] ++ [(h.2.take 32).length] ++ h.2.take 32) := by
      simp only [encodeHint, ha1, ha2, ha3, Option.bind_eq_bind, Option.some_bind]
    rw [List.foldlM_cons, henc]
    show (rest.foldlM encodeHint _).isSome = true
    exact foldlM_encodeHint_isSome rest _ (fun x hx => hh x (List.mem_cons_of_mem _ hx))

example : parse_button_state [1, 1, 1, 2] = [(1, 1)] := by decide

example : parse_app_info [4, 1, 255, 1, 2] = .error .fieldExceedsBuffer := by decide

example : parse_app_info [0x04, 0x01, 0x01, 0xFF, 0x01] = .error .invalidUtf8 := by decide

example : parse_app_info [0x04, 0x01, 0, 0, 0, 0, 2, 5, 1, 0xFF] = .error .invalidUtf8 := by
  decide

example : validUtf8 [0xC3, 0xA9] = true ∧ validUtf8 [0xE2, 0x82, 0xAC] = true
    ∧ validUtf8 [0xF0, 0x9F, 0x9A, 0xB2] = true ∧ validUtf8 [0xFF] = false
    ∧ validUtf8 [0xC0, 0x80] = false ∧ validUtf8 [0xED, 0xA0, 0x80] = false
    ∧ validUtf8 [0xC3] = false := by decide

example : parse_device_status [2, 255, 0] = .ok { battery := none, connected := false } := by
  decide

example : encode_button_state [(256, 0)] = none := by decide

example :
    (encode_button_state [(3, 7), (5, 9)]).map parse_button_state = some [(3, 7), (5, 9)] := by
  decide

/-- C1: for every sequence `v` of ButtonEvent pairs with `button_id` and
`state` each a byte `0`-`255`, decoding the encoding of `v` returns `v`,
with the pairs in the same order as the input:
`parse_button_state (encode_button_state v) = v`.  (The Python module
implements only the framed mode: `encode_button_state` always prepends the
ButtonState tag and `parse_button_state` always expects it.) -/
theorem C1_button_state_roundtrip (v : List (Nat × Nat))
    (h : ∀ p ∈ v, p.1 < 256 ∧ p.2 < 256) :
    (encode_button_state v).map parse_button_state = some v := by
  unfold encode_button_state
  rw [foldlM_pairs v [MSG_TYPE_BUTTON_STATE] h]
  have hparse : parse_button_state ([MSG_TYPE_BUTTON_STATE] ++ v.flatMap fun p => [p.1, p.2]) = v := by
    unfold parse_button_state
    rw [if_neg (by simp), if_neg (by simp [MSG_TYPE_BUTTON_STATE])]
    show pairsFrom (v.flatMap fun p => [p.1, p.2]) = v
    exact pairsFrom_flat v
  rw [Option.map_some', hparse]

theorem C1_button_state_roundtrip_witness :
    (encode_button_state [(1, 1), (2, 0), (0x20, 3)]).map parse_button_state
      = some [(1, 1), (2, 0), (0x20, 3)] :=
  C1_button_state_roundtrip [(1, 1), (2, 0), (0x20, 3)] (by decide)

/-- C6: for every framed buffer that is empty or whose first byte is not the
ButtonState tag `0x01`, `parse_button_state` returns the empty sequence and
raises no error (`parse_button_state` is a total function of the buffer). -/
theorem C6_button_state_permissive_skip (data : List Nat)
    (h : data.length = 0 ∨ data.getD 0 0 ≠ MSG_TYPE_BUTTON_STATE) :
    parse_button_state data = [] := by
  unfold parse_button_state
  rcases h with h | h
  · rw [if_pos h]
  · by_cases h0 : data.length = 0
    · rw [if_pos h0]
    · rw [if_neg h0, if_pos h]

theorem C6_button_state_permissive_skip_witness :
    parse_button_state [] = [] ∧ parse_button_state [2, 5, 6] = [] :=
  ⟨C6_button_state_permissive_skip [] (by decide),
   C6_button_state_permissive_skip [2, 5, 6] (by decide)⟩

/-- C7: for every framed ButtonState buffer with an odd number of bytes
after the tag (an even-length pair region `l` plus one unpaired byte `b`),
`parse_button_state` consumes the pairs and silently discards the final
unpaired byte; in particular `parse_button_state [0x01, 0x01, 0x01, 0x02]`
yields `[(0x01, 0x01)]`, dropping byte `0x02`. -/
theorem C7_button_state_odd_drop :
    (∀ (l : List Nat) (b : Nat), l.length % 2 = 0 →
        parse_button_state (MSG_TYPE_BUTTON_STATE :: (l ++ [b]))
          = parse_button_state (MSG_TYPE_BUTTON_STATE :: l))
      ∧ parse_button_state [0x01, 0x01, 0x01, 0x02] = [(0x01, 0x01)] := by
  constructor
  · intro l b hl
    unfold parse_button_state
    rw [if_neg (by simp), if_neg (by simp), if_neg (by simp [MSG_TYPE_BUTTON_STATE]),
      if_neg (by simp [MSG_TYPE_BUTTON_STATE])]
    show pairsFrom (l ++ [b]) = pairsFrom l
    exact pairsFrom_append_even l b hl
  · decide

theorem C7_button_state_odd_drop_witness :
    parse_button_state (MSG_TYPE_BUTTON_STATE :: ([1, 1] ++ [2]))
      = parse_button_state (MSG_TYPE_BUTTON_STATE :: [1, 1]) :=
  C7_button_state_odd_drop.1 [1, 1] 2 (by decide)

/-- C4: `parse_device_status` fails with TooShort on every buffer shorter
than 3 bytes; fails with WrongTag on every buffer of length at least 3
whose first byte is not `0x02`; and otherwise succeeds with battery `none`
exactly when byte 1 is `0xFF` (any other value, including values above
100, passed through unvalidated) and connected true exactly when byte 2
equals `0x01`; in particular
`parse_device_status [0x02, 0xFF, 0x00] = { battery := none, connected := false }`. -/
theorem C4_device_status_decode (data : List Nat) :
    (data.length < 3 → parse_device_status data = .error .tooShort)
    ∧ (3 ≤ data.length → data.getD 0 0 ≠ MSG_TYPE_DEVICE_STATUS →
        parse_device_status data = .error .wrongTag)
    ∧ (3 ≤ data.length → data.getD 0 0 = MSG_TYPE_DEVICE_STATUS →
        parse_device_status data
          = .ok { battery := if data.getD 1 0 = 0xFF then none else some (data.getD 1 0),
                  connected := data.getD 2 0 = 0x01 })
    ∧ parse_device_status [0x02, 0xFF, 0x00] = .ok { battery := none, connected := false } := by
  refine ⟨?_, ?_, ?_, by decide⟩
  · intro h
    unfold parse_device_status
    rw [if_pos h]
  · intro h1 h2
    unfold parse_device_status
    rw [if_neg (by omega), if_pos h2]
  · intro h1 h2
    unfold parse_device_status
    rw [if_neg (by omega), if_neg (not_not_intro h2)]

theorem C4_device_status_decode_witness :
    parse_device_status [2] = .error .tooShort
      ∧ parse_device_status [9, 9, 9] = .error .wrongTag
      ∧ parse_device_status [2, 200, 1] = .ok { battery := some 200, connected := true } :=
  ⟨(C4_device_status_decode [2]).1 (by decide),
   (C4_device_status_decode [9, 9, 9]).2.1 (by decide) (by decide),
   (C4_device_status_decode [2, 200, 1]).2.2.1 (by decide) (by decide)⟩

/-- C8: haptic pattern handling is lenient in both directions.  For every
pattern byte `p` outside the known enum `0x00`-`0x07`, decoding a framed
haptic buffer succeeds (no error) with the sentinel pattern name
`"unknown"` and the raw byte preserved in `pattern_byte`; and for every
pattern name outside the known name set, `encode_haptic_feedback` falls
back to the Short pattern byte `0x01`. -/
theorem C8_haptic_leniency :
    (∀ p d i : Nat, 7 < p → p < 256 → d < 256 → i < 256 →
        parse_haptic_feedback [MSG_TYPE_HAPTIC_FEEDBACK, p, d, i]
          = .ok { pattern := "unknown", pattern_byte := p, duration := d, intensity := i })
    ∧ (∀ (pattern : String) (d i : Nat),
        pattern ∉ HAPTIC_PATTERNS.map Prod.fst → d < 256 → i < 256 →
        encode_haptic_feedback pattern d i
          = some [MSG_TYPE_HAPTIC_FEEDBACK, 0x01, d, i]) := by
  constructor
  · intro p d i hp _ _ _
    unfold parse_haptic_feedback
    rw [if_neg (by simp), if_neg (by simp)]
    simp only [List.getD_cons_succ, List.getD_cons_zero]
    rw [hapticName_unknown p hp]
  · intro pattern d i hpat hd hi
    unfold encode_haptic_feedback
    rw [haptic_find_name_none pattern hpat]
    show extendBytes [MSG_TYPE_HAPTIC_FEEDBACK] [0x01, d, i] = _
    rw [extendBytes_ok _ _ (by
      intro b hb
      simp only [List.mem_cons, List.not_mem_nil, or_false] at hb
      rcases hb with hb | hb | hb <;> omega)]
    rfl

theorem C8_haptic_leniency_witness :
    parse_haptic_feedback [MSG_TYPE_HAPTIC_FEEDBACK, 0xAA, 7, 9]
        = .ok { pattern := "unknown", pattern_byte := 0xAA, duration := 7, intensity := 9 }
      ∧ encode_haptic_feedback "zigzag" 20 128 = some [MSG_TYPE_HAPTIC_FEEDBACK, 0x01, 20, 128] :=
  ⟨C8_haptic_leniency.1 0xAA 7 9 (by decide) (by decide) (by decide) (by decide),
   C8_haptic_leniency.2 "zigzag" 20 128 (by decide) (by decide) (by decide)⟩

/-- C10: the fixed-size decoders tolerate trailing bytes.  For every buffer
of length at least 3 with first byte `0x02`, `parse_device_status` succeeds
and equals `parse_device_status` of the first 3 bytes; for every buffer of
length at least 4 with first byte `0x03`, `parse_haptic_feedback` succeeds
and equals `parse_haptic_feedback` of the first 4 bytes. -/
theorem C10_fixed_size_trailing_bytes (data : List Nat) :
    (3 ≤ data.length → data.getD 0 0 = MSG_TYPE_DEVICE_STATUS →
      (∃ r, parse_device_status data = .ok r)
        ∧ parse_device_status data = parse_device_status (data.take 3))
    ∧ (4 ≤ data.length → data.getD 0 0 = MSG_TYPE_HAPTIC_FEEDBACK →
      (∃ r, parse_haptic_feedback data = .ok r)
        ∧ parse_haptic_feedback data = parse_haptic_feedback (data.take 4)) := by
  constructor
  · intro hlen htag
    have hok : parse_device_status data
        = .ok { battery := if data.getD 1 0 = 0xFF then none else some (data.getD 1 0),
                connected := data.getD 2 0 = 0x01 } := by
      unfold parse_device_status
      rw [if_neg (by omega), if_neg (not_not_intro htag)]
    refine ⟨⟨_, hok⟩, ?_⟩
    have htl : (data.take 3).length = 3 := by
      rw [List.length_take]
      omega
    have hok3 : parse_device_status (data.take 3)
        = .ok { battery := if data.getD 1 0 = 0xFF then none else some (data.getD 1 0),
                connected := data.getD 2 0 = 0x01 } := by
      unfold parse_device_status
      rw [getD_take data 0 3 (by omega), getD_take data 1 3 (by omega),
        getD_take data 2 3 (by omega)]
      rw [if_neg (by omega), if_neg (not_not_intro htag)]
    rw [hok, hok3]
  · intro hlen htag
    have hok : parse_haptic_feedback data
        = .ok { pattern := hapticName (data.getD 1 0), pattern_byte := data.getD 1 0,
                duration := data.getD 2 0, intensity := data.getD 3 0 } := by
      unfold parse_haptic_feedback
      rw [if_neg (by omega), if_neg (not_not_intro htag)]
    refine ⟨⟨_, hok⟩, ?_⟩
    have htl : (data.take 4).length = 4 := by
      rw [List.length_take]
      omega
    have hok4 : parse_haptic_feedback (data.take 4)
        = .ok { pattern := hapticName (data.getD 1 0), pattern_byte := data.getD 1 0,
                duration := data.getD 2 0, intensity := data.getD 3 0 } := by
      unfold parse_haptic_feedback
      rw [getD_take data 0 4 (by omega), getD_take data 1 4 (by omega),
        getD_take data 2 4 (by omega), getD_take data 3 4 (by omega)]
      rw [if_neg (by omega), if_neg (not_not_intro htag)]
    rw [hok, hok4]

theorem C10_fixed_size_trailing_bytes_witness :
    parse_device_status [2, 80, 1, 99, 99] = parse_device_status [2, 80, 1]
      ∧ parse_haptic_feedback [3, 2, 20, 128, 77] = parse_haptic_feedback [3, 2, 20, 128] :=
  ⟨((C10_fixed_size_trailing_bytes [2, 80, 1, 99, 99]).1 (by decide) (by decide)).2,
   ((C10_fixed_size_trailing_bytes [3, 2, 20, 128, 77]).2 (by decide) (by decide)).2⟩

/-- C3: `parse_app_info` is bounds-checked.  For each mandatory
length-prefixed field (device_type, app_id, app_version, button count), on
every buffer in which the earlier fields are well-formed (in bounds and,
for the string fields, valid UTF-8, so their decode succeeds) and the
declared length `l` of that field exceeds the bytes remaining after it,
decoding fails with FieldExceedsBuffer — the length check precedes the
UTF-8 decode, so the failing field itself needs no validity assumption
(every read in the embedding sits behind the same bounds guards as the
source, so no read is out of bounds); in particular decoding the 5-byte
buffer `[0x04, 0x01, 0xFF, 0x01, 0x02]` fails with FieldExceedsBuffer. -/
theorem C3_app_info_bounds_checked :
    ((∀ (l : Nat) (rest : List Nat), 1 ≤ rest.length → rest.length < l →
        parse_app_info ([0x04, 0x01, l] ++ rest) = .error .fieldExceedsBuffer)
    ∧ (∀ (dt : List Nat) (l : Nat) (rest : List Nat), validUtf8 dt = true →
        rest.length < l →
        parse_app_info ([0x04, 0x01, dt.length] ++ dt ++ l :: rest)
          = .error .fieldExceedsBuffer)
    ∧ (∀ (dt id : List Nat) (l : Nat) (rest : List Nat), validUtf8 dt = true →
        validUtf8 id = true → rest.length < l →
        parse_app_info ([0x04, 0x01, dt.length] ++ dt ++ id.length :: (id ++ l :: rest))
          = .error .fieldExceedsBuffer)
    ∧ (∀ (dt id ver : List Nat) (l : Nat) (rest : List Nat), validUtf8 dt = true →
        validUtf8 id = true → validUtf8 ver = true → rest.length < l →
        parse_app_info
            ([0x04, 0x01, dt.length] ++ dt
              ++ id.length :: (id ++ ver.length :: (ver ++ l :: rest)))
          = .error .fieldExceedsBuffer))
    ∧ parse_app_info [0x04, 0x01, 0xFF, 0x01, 0x02] = .error .fieldExceedsBuffer := by
  refine ⟨⟨?_, ?_, ?_, ?_⟩, by decide⟩
  · intro l rest h1 hl
    have hlen : ([0x04, 0x01, l] ++ rest).length = rest.length + 3 := by simp
    have hre : readStringField ([0x04, 0x01, l] ++ rest) 2 = .error .fieldExceedsBuffer :=
      readStringField_exceeds _ [0x04, 0x01] l rest 2 (by simp) rfl hl
    unfold parse_app_info
    rw [if_neg (by push_neg; exact ⟨by omega, by rfl⟩)]
    rw [if_neg (by omega)]
    rw [if_neg (by simp)]
    rw [hre]
  · intro dt l rest hdtu hl
    have hlen : ([0x04, 0x01, dt.length] ++ dt ++ l :: rest).length
        = dt.length + rest.length + 4 := by simp <;> omega
    have h0 : ([0x04, 0x01, dt.length] ++ dt ++ l :: rest).getD 0 0 = 4 :=
      getD_at' _ [] 4 (0x01 :: dt.length :: (dt ++ l :: rest)) 0 (by simp) rfl
    have h1 : ([0x04, 0x01, dt.length] ++ dt ++ l :: rest).getD 1 0 = 1 :=
      getD_at' _ [0x04] 1 (dt.length :: (dt ++ l :: rest)) 1 (by simp) rfl
    have hr1 : readStringField ([0x04, 0x01, dt.length] ++ dt ++ l :: rest) 2
        = .ok (dt, 2 + 1 + dt.length) :=
      readStringField_spec _ [0x04, 0x01] dt (l :: rest) 2 (by simp) rfl hdtu
    have hre : readStringField ([0x04, 0x01, dt.length] ++ dt ++ l :: rest) (2 + 1 + dt.length)
        = .error .fieldExceedsBuffer :=
      readStringField_exceeds _ ([0x04, 0x01, dt.length] ++ dt) l rest (2 + 1 + dt.length)
        (by simp)
        (by simp only [List.length_append, List.length_cons, List.length_nil] <;> omega) hl
    unfold parse_app_info
    rw [if_neg (by push_neg; exact ⟨by omega, by rw [h0]; rfl⟩)]
    rw [if_neg (by omega)]
    rw [if_neg (by rw [h1]; simp)]
    simp only [hr1, hre]
  · intro dt id l rest hdtu hidu hl
    have hlen : ([0x04, 0x01, dt.length] ++ dt ++ id.length :: (id ++ l :: rest)).length
        = dt.length + id.length + rest.length + 5 := by simp <;> omega
    have h0 : ([0x04, 0x01, dt.length] ++ dt ++ id.length :: (id ++ l :: rest)).getD 0 0 = 4 :=
      getD_at' _ [] 4 (0x01 :: dt.length :: (dt ++ id.length :: (id ++ l :: rest))) 0
        (by simp) rfl
    have h1 : ([0x04, 0x01, dt.length] ++ dt ++ id.length :: (id ++ l :: rest)).getD 1 0 = 1 :=
      getD_at' _ [0x04] 1 (dt.length :: (dt ++ id.length :: (id ++ l :: rest))) 1
        (by simp) rfl
    have hr1 : readStringField
        ([0x04, 0x01, dt.length] ++ dt ++ id.length :: (id ++ l :: rest)) 2
        = .ok (dt, 2 + 1 + dt.length) :=
      readStringField_spec _ [0x04, 0x01] dt (id.length :: (id ++ l :: rest)) 2 (by simp)
        rfl hdtu
    have hr2 : readStringField ([0x04, 0x01, dt.length] ++ dt ++ id.length :: (id ++ l :: rest))
        (2 + 1 + dt.length) = .ok (id, 2 + 1 + dt.length + 1 + id.length) :=
      readStringField_spec _ ([0x04, 0x01, dt.length] ++ dt) id (l :: rest) (2 + 1 + dt.length)
        (by simp)
        (by simp only [List.length_append, List.length_cons, List.length_nil] <;> omega) hidu
    have hre : readStringField
        ([0x04, 0x01, dt.length] ++ dt ++ id.length :: (id ++ l :: rest))
        (2 + 1 + dt.length + 1 + id.length) = .error .fieldExceedsBuffer :=
      readStringField_exceeds _ ([0x04, 0x01, dt.length] ++ dt ++ [id.length] ++ id) l rest
        (2 + 1 + dt.length + 1 + id.length) (by simp)
        (by simp only [List.length_append, List.length_cons, List.length_nil] <;> omega) hl
    unfold parse_app_info
    rw [if_neg (by push_neg; exact ⟨by omega, by rw [h0]; rfl⟩)]
    rw [if_neg (by omega)]
    rw [if_neg (by rw [h1]; simp)]
    simp only [hr1, hr2, hre]
  · intro dt id ver l rest hdtu hidu hveru hl
    have hlen : ([0x04, 0x01, dt.length] ++ dt
        ++ id.length :: (id ++ ver.length :: (ver ++ l :: rest))).length
        = dt.length + id.length + ver.length + rest.length + 6 := by simp <;> omega
    have h0 : ([0x04, 0x01, dt.length] ++ dt
        ++ id.length :: (id ++ ver.length :: (ver ++ l :: rest))).getD 0 0 = 4 :=
      getD_at' _ [] 4
        (0x01 :: dt.length :: (dt ++ id.length :: (id ++ ver.length :: (ver ++ l :: rest)))) 0
        (by simp) rfl
    have h1 : ([0x04, 0x01, dt.length] ++ dt
        ++ id.length :: (id ++ ver.length :: (ver ++ l :: rest))).getD 1 0 = 1 :=
      getD_at' _ [0x04] 1
        (dt.length :: (dt ++ id.length :: (id ++ ver.length :: (ver ++ l :: rest)))) 1
        (by simp) rfl
    have hr1 : readStringField ([0x04, 0x01, dt.length] ++ dt
        ++ id.length :: (id ++ ver.length :: (ver ++ l :: rest))) 2
        = .ok (dt, 2 + 1 + dt.length) :=
      readStringField_spec _ [0x04, 0x01] dt
        (id.length :: (id ++ ver.length :: (ver ++ l :: rest))) 2 (by simp) rfl hdtu
    have hr2 : readStringField ([0x04, 0x01, dt.length] ++ dt
        ++ id.length :: (id ++ ver.length :: (ver ++ l :: rest))) (2 + 1 + dt.length)
        = .ok (id, 2 + 1 + dt.length + 1 + id.length) :=
      readStringField_spec _ ([0x04, 0x01, dt.length] ++ dt) id
        (ver.length :: (ver ++ l :: rest)) (2 + 1 + dt.length) (by simp)
        (by simp only [List.length_append, List.length_cons, List.length_nil] <;> omega) hidu
    have hr3 : readStringField ([0x04, 0x01, dt.length] ++ dt
        ++ id.length :: (id ++ ver.length :: (ver ++ l :: rest)))
        (2 + 1 + dt.length + 1 + id.length)
        = .ok (ver, 2 + 1 + dt.length + 1 + id.length + 1 + ver.length) :=
      readStringField_spec _ ([0x04, 0x01, dt.length] ++ dt ++ [id.length] ++ id) ver
        (l :: rest) (2 + 1 + dt.length + 1 + id.length) (by simp)
        (by simp only [List.length_append, List.length_cons, List.length_nil] <;> omega) hveru
    have hre : readField ([0x04, 0x01, dt.length] ++ dt
        ++ id.length :: (id ++ ver.length :: (ver ++ l :: rest)))
        (2 + 1 + dt.length + 1 + id.length + 1 + ver.length) = .error .fieldExceedsBuffer :=
      readField_exceeds _
        ([0x04, 0x01, dt.length] ++ dt ++ [id.length] ++ id ++ [ver.length] ++ ver) l rest
        (2 + 1 + dt.length + 1 + id.length + 1 + ver.length) (by simp)
        (by simp only [List.length_append, List.length_cons, List.length_nil] <;> omega) hl
    unfold parse_app_info
    rw [if_neg (by push_neg; exact ⟨by omega, by rw [h0]; rfl⟩)]
    rw [if_neg (by omega)]
    rw [if_neg (by rw [h1]; simp)]
    simp only [hr1, hr2, hr3, hre]

theorem C3_app_info_bounds_checked_witness :
    parse_app_info ([0x04, 0x01, 200] ++ [0x61, 0x62]) = .error .fieldExceedsBuffer :=
  C3_app_info_bounds_checked.1.1 200 [0x61, 0x62] (by decide) (by decide)

/-- C2: for every AppInfo value whose string fields (device_type, app_id,
app_version and every hint label, each modelled by its UTF-8 byte list,
hence valid UTF-8) are at most 32 bytes, and whose supported_buttons list
and button_hints map each have at most 255 entries of byte values (hint
keys distinct, as in a dict), decoding the framed encoding returns
exactly the same value, including when supported_buttons and button_hints
are empty. -/
theorem C2_app_info_roundtrip (dt id ver btns : List Nat) (hints : List (Nat × List Nat))
    (hdt : dt.length ≤ 32) (hdtb : ∀ b ∈ dt, b < 256)
    (hid : id.length ≤ 32) (hidb : ∀ b ∈ id, b < 256)
    (hver : ver.length ≤ 32) (hverb : ∀ b ∈ ver, b < 256)
    (hbtns : btns.length ≤ 255) (hbtnsb : ∀ b ∈ btns, b < 256)
    (hhints : hints.length ≤ 255)
    (hh : ∀ h ∈ hints, h.1 < 256 ∧ h.2.length ≤ 32 ∧ ∀ b ∈ h.2, b < 256)
    (hnodup : (hints.map Prod.fst).Nodup)
    (hdtu : validUtf8 dt = true) (hidu : validUtf8 id = true)
    (hveru : validUtf8 ver = true)
    (hhu : ∀ h ∈ hints, validUtf8 h.2 = true) :
    (encode_app_info id ver btns dt hints).map parse_app_info
      = some (.ok { device_type := dt, app_id := id, app_version := ver,
                    supported_buttons := btns, button_hints := hints }) := by
  rw [encode_app_info_eq id ver btns dt hints hdt hdtb hid hidb hver hverb hbtns hbtnsb
    hhints hh]
  rw [Option.map_some']
  have hbytes : appInfoBytes dt id ver btns hints
      = appInfoHeader dt id ver btns ++ (hints.length :: hintsBytes hints) := by
    simp [appInfoBytes]
  have hshape : parse_app_info (appInfoHeader dt id ver btns ++ (hints.length :: hintsBytes hints))
      = match parseHints hints.length
            (appInfoHeader dt id ver btns ++ (hints.length :: hintsBytes hints))
            ((appInfoHeader dt id ver btns).length + 1) [] with
        | .error e => .error e
        | .ok h => .ok { device_type := dt, app_id := id, app_version := ver,
                         supported_buttons := btns, button_hints := h } :=
    parse_app_info_shape dt id ver btns (hints.length :: hintsBytes hints) hdtu hidu hveru
  have hph : parseHints hints.length
      (appInfoHeader dt id ver btns ++ (hints.length :: hintsBytes hints))
      ((appInfoHeader dt id ver btns).length + 1) [] = .ok hints := by
    have hcons := parseHints_consume hints 0
      (appInfoHeader dt id ver btns ++ (hints.length :: hintsBytes hints))
      (appInfoHeader dt id ver btns ++ [hints.length]) [] []
      (by simp) hhu
    have hl1 : (appInfoHeader dt id ver btns ++ [hints.length]).length
        = (appInfoHeader dt id ver btns).length + 1 := by simp
    rw [hl1, Nat.add_zero] at hcons
    rw [hcons]
    show Except.ok (hints.foldl (fun m h => dictInsert m h.1 h.2) []) = _
    rw [foldl_dictInsert_eq hints [] hnodup (by simp)]
    simp
  rw [hbytes, hshape, hph]

theorem C2_app_info_roundtrip_witness :
    (encode_app_info [0x69, 0x64] [0x31] [0x01, 0x02] [0x61]
        [(0x20, [0x45]), (0x40, [])]).map parse_app_info
      = some (.ok { device_type := [0x61], app_id := [0x69, 0x64], app_version := [0x31],
                    supported_buttons := [0x01, 0x02],
                    button_hints := [(0x20, [0x45]), (0x40, [])] }) :=
  C2_app_info_roundtrip [0x61] [0x69, 0x64] [0x31] [0x01, 0x02] [(0x20, [0x45]), (0x40, [])]
    (by decide) (by decide) (by decide) (by decide) (by decide) (by decide) (by decide)
    (by decide) (by decide) (by decide) (by decide) (by decide) (by decide) (by decide)
    (by decide)

/-- C9: for every AppInfo buffer whose mandatory fields parse successfully
(in bounds, string fields valid UTF-8) and whose hint-count byte is
present and larger than the number of complete hints in the buffer (each
complete hint carrying a valid-UTF-8 label, as decoding it requires), if
the trailing hint data is truncated (nothing left, only a button id left,
or a label length exceeding the remaining bytes), `parse_app_info` does
not fail: it stops parsing hints before any decode of the truncated entry
and returns the AppInfo with exactly the hints that were fully parsed
before the truncation. -/
theorem C9_app_info_hints_truncated (dt id ver btns : List Nat)
    (good : List (Nat × List Nat)) (hc : Nat) (tail : List Nat)
    (hfuel : good.length < hc)
    (hnodup : (good.map Prod.fst).Nodup)
    (htail : truncatedTail tail)
    (hdtu : validUtf8 dt = true) (hidu : validUtf8 id = true)
    (hveru : validUtf8 ver = true)
    (hgoodu : ∀ h ∈ good, validUtf8 h.2 = true) :
    parse_app_info (appInfoHeader dt id ver btns ++ (hc :: (hintsBytes good ++ tail)))
      = .ok { device_type := dt, app_id := id, app_version := ver,
              supported_buttons := btns, button_hints := good } := by
  have hshape : parse_app_info
      (appInfoHeader dt id ver btns ++ (hc :: (hintsBytes good ++ tail)))
      = match parseHints hc
            (appInfoHeader dt id ver btns ++ (hc :: (hintsBytes good ++ tail)))
            ((appInfoHeader dt id ver btns).length + 1) [] with
        | .error e => .error e
        | .ok h => .ok { device_type := dt, app_id := id, app_version := ver,
                         supported_buttons := btns, button_hints := h } :=
    parse_app_info_shape dt id ver btns (hc :: (hintsBytes good ++ tail)) hdtu hidu hveru
  have hph : parseHints hc
      (appInfoHeader dt id ver btns ++ (hc :: (hintsBytes good ++ tail)))
      ((appInfoHeader dt id ver btns).length + 1) [] = .ok good := by
    have hcons := parseHints_consume good (hc - good.length)
      (appInfoHeader dt id ver btns ++ (hc :: (hintsBytes good ++ tail)))
      (appInfoHeader dt id ver btns ++ [hc]) tail []
      (by simp) hgoodu
    have hl1 : (appInfoHeader dt id ver btns ++ [hc]).length
        = (appInfoHeader dt id ver btns).length + 1 := by simp
    rw [hl1] at hcons
    have hfe : good.length + (hc - good.length) = hc := by omega
    rw [hfe] at hcons
    rw [hcons]
    obtain ⟨k, hk⟩ : ∃ k, hc - good.length = k + 1 := ⟨hc - good.length - 1, by omega⟩
    rw [hk]
    have hstop := parseHints_stop
      (appInfoHeader dt id ver btns ++ (hc :: (hintsBytes good ++ tail)))
      ((appInfoHeader dt id ver btns ++ [hc]) ++ hintsBytes good) tail k
      (good.foldl (fun m h => dictInsert m h.1 h.2) []) (by simp) htail
    have hl2 : ((appInfoHeader dt id ver btns ++ [hc]) ++ hintsBytes good).length
        = (appInfoHeader dt id ver btns).length + 1 + (hintsBytes good).length := by
      simp only [List.length_append, List.length_cons, List.length_nil] <;> omega
    rw [hl2] at hstop
    rw [hstop]
    rw [foldl_dictInsert_eq good [] hnodup (by simp)]
    simp
  rw [hshape, hph]

theorem C9_app_info_hints_truncated_witness :
    parse_app_info (appInfoHeader [0x61] [0x69] [0x31] [0x01]
        ++ (3 :: (hintsBytes [(0x20, [0x45])] ++ [0x40, 9, 1])))
      = .ok { device_type := [0x61], app_id := [0x69], app_version := [0x31],
              supported_buttons := [0x01], button_hints := [(0x20, [0x45])] } :=
  C9_app_info_hints_truncated [0x61] [0x69] [0x31] [0x01] [(0x20, [0x45])] 3 [0x40, 9, 1]
    (by decide) (by decide) (Or.inr (Or.inr ⟨0x40, 9, [1], rfl, by decide⟩))
    (by decide) (by decide) (by decide) (by decide)

/-- C5 counterexample: encoding can fail.  Each of the four encoders
raises `ValueError` (modelled as `none`) on an integer argument outside
the byte range `0..255`, so "encoding never fails for every caller input"
is false on the code. -/
theorem C5_encode_can_fail :
    encode_button_state [(256, 0)] = none
      ∧ encode_device_status (some 300) true = none
      ∧ encode_haptic_feedback "short" 300 0 = none
      ∧ encode_app_info [] [] [300] [] [] = none := by
  decide

/-- C5 (amended): encoding never fails for caller inputs within the
documented byte ranges: button ids and states, the battery value, duration
and intensity in `0..255`, supported_buttons and button_hints with at most
255 entries of byte values.  Within those ranges every out-of-range-like
input is coerced to a safe default at the boundary: an unknown pattern
name falls back to the Short pattern byte, over-long strings are silently
truncated to 32 bytes, a missing battery becomes the `0xFF` sentinel. -/
theorem C5_encode_total_in_range :
    (∀ v : List (Nat × Nat), (∀ p ∈ v, p.1 < 256 ∧ p.2 < 256) →
        (encode_button_state v).isSome = true)
    ∧ (∀ (battery : Option Nat) (connected : Bool), (∀ b ∈ battery, b < 256) →
        (encode_device_status battery connected).isSome = true)
    ∧ (∀ (pattern : String) (d i : Nat), d < 256 → i < 256 →
        (encode_haptic_feedback pattern d i).isSome = true)
    ∧ (∀ (app_id app_version supported_buttons device_type : List Nat)
        (button_hints : List (Nat × List Nat)),
        (∀ b ∈ app_id, b < 256) → (∀ b ∈ app_version, b < 256) →
        (∀ b ∈ device_type, b < 256) →
        supported_buttons.length ≤ 255 → (∀ b ∈ supported_buttons, b < 256) →
        button_hints.length ≤ 255 →
        (∀ h ∈ button_hints, h.1 < 256 ∧ ∀ b ∈ h.2, b < 256) →
        (encode_app_info app_id app_version supported_buttons device_type
          button_hints).isSome = true) := by
  refine ⟨?_, ?_, ?_, ?_⟩
  · intro v h
    unfold encode_button_state
    rw [foldlM_pairs v _ h]
    rfl
  · intro battery connected h
    rcases battery with _ | b
    · cases connected <;> decide
    · have hb : b < 256 := h b rfl
      cases connected <;> simp [encode_device_status, extendBytes, hb, MSG_TYPE_DEVICE_STATUS]
  · intro pattern d i hd hi
    cases hfind : HAPTIC_PATTERNS.find? (fun p => p.1 == pattern) with
    | none => simp [encode_haptic_feedback, hfind, extendBytes, hd, hi]
    | some q =>
      have hq : q ∈ HAPTIC_PATTERNS := List.mem_of_find?_eq_some hfind
      have hqv : q.2 < 256 := haptic_values_bytes q hq
      simp [encode_haptic_feedback, hfind, extendBytes, hd, hi, hqv]
  · intro app_id app_version supported_buttons device_type button_hints hidb hverb hdtb
      hbtns hbtnsb hhints hh
    unfold encode_app_info
    rw [appendByte_ok _ _ (by omega)]
    simp only [Option.bind_eq_bind, Option.some_bind]
    rw [appendByte_ok _ _ (by have := List.length_take_le 32 device_type; omega)]
    simp only [Option.some_bind]
    rw [extendBytes_ok _ _ (fun b hb => hdtb b (List.take_subset 32 device_type hb))]
    simp only [Option.some_bind]
    rw [appendByte_ok _ _ (by have := List.length_take_le 32 app_id; omega)]
    simp only [Option.some_bind]
    rw [extendBytes_ok _ _ (fun b hb => hidb b (List.take_subset 32 app_id hb))]
    simp only [Option.some_bind]
    rw [appendByte_ok _ _ (by have := List.length_take_le 32 app_version; omega)]
    simp only [Option.some_bind]
    rw [extendBytes_ok _ _ (fun b hb => hverb b (List.take_subset 32 app_version hb))]
    simp only [Option.some_bind]
    rw [appendByte_ok _ _ (by omega)]
    simp only [Option.some_bind]
    rw [extendBytes_ok _ _ hbtnsb]
    simp only [Option.some_bind]
    rw [appendByte_ok _ _ (by omega)]
    simp only [Option.some_bind]
    exact foldlM_encodeHint_isSome button_hints _ hh

theorem C5_encode_total_in_range_witness :
    (encode_button_state [(1, 255)]).isSome = true
      ∧ (encode_device_status (some 100) true).isSome = true
      ∧ (encode_haptic_feedback "warble" 3 4).isSome = true
      ∧ (encode_app_info [0x69] [0x31] [0x50] [0x61] [(5, [0x41])]).isSome = true :=
  ⟨C5_encode_total_in_range.1 [(1, 255)] (by decide),
   C5_encode_total_in_range.2.1 (some 100) true (by intro b hb; simp at hb; omega),
   C5_encode_total_in_range.2.2.1 "warble" 3 4 (by decide) (by decide),
   C5_encode_total_in_range.2.2.2 [0x69] [0x31] [0x50] [0x61] [(5, [0x41])]
     (by decide) (by decide) (by decide) (by decide) (by decide) (by decide) (by decide)⟩
